import Mathlib

/-!
Verification of the lifecycle supervisor in `src/main.py` of the khoj
desktop shell.

The embedding translates `run`, `ServerThread` and `create_system_tray`
from `src/main.py`.  The two external collaborators that the supervisor
calls but whose code is not part of the sources (`cli` from
`src.utils.cli` and `configure_server` from `src.configure`) are modelled
from the spec, as noted on their definitions.

Semantics of the PyQt6 primitives the source uses, reflected in the
embedding:
  * `QApplication.exec()` processes events until `QApplication.quit()` is
    called; it can be called again after returning.
  * `gui.setQuitOnLastWindowClosed(False)` (line 28 of the source) means
    closing the last window does not quit the event loop.
  * `aboutToQuit` is emitted, and connected slots run, just before
    `exec()` returns.
  * `QThread.start()` spawns the thread; `QThread.terminate()` forcibly
    terminates a running thread: it does not deliver any cooperative stop
    request to the thread's code, it returns without waiting for the
    thread to finish, and it is a no-op on a thread that is not running.

The foreground event loop is driven by a list of `TrayEvent`s: the three
tray menu actions of `create_system_tray` plus the user closing the setup
window.  A process run is the deterministic function `run` of the two
configuration reads and the event lists fed to the (at most) two event
loops; its observable behaviour is the final `World`, whose `trace`
records queries, window/loop activity, server start/stop and process
exit.
-/

namespace Khoj

/-- A validated configuration: semantically a TCP host/port or a local
socket path (spec, section 3).  The supervisor treats it as opaque beyond
the presence check `args.config is None`. -/
inductive Config where
  | tcpCfg (host : String) (port : Nat)
  | socketCfg (path : String)
deriving DecidableEq

/-- Modelled from the spec: `configure_server` (from `src.configure`,
whose file is not among the sources) resolves a validated configuration
into the `(host, port, socket)` triple the server thread is built with.
A TCP configuration yields host and port, a socket configuration yields
the socket path; exactly one variant is active per run. -/
def configure_server : Config → Option String × Option Nat × Option String
  | Config.tcpCfg h p => (some h, some p, none)
  | Config.socketCfg s => (none, none, some s)

/-- The resolved bind target the listener serves on: `TcpBind{host,port}`
or `UnixSocketBind{path}` (spec, section 3). -/
inductive BindTarget where
  | tcp (host : String) (port : Nat)
  | unixSocket (path : String)
deriving DecidableEq

/-- The `ServerThread` of `src/main.py` (a `QThread` hosting
`uvicorn.run`).  `host`, `port` and `socket` are the constructor
arguments (default `None`).  The control fields record the thread's
state: `started` is set by `QThread.start`; `terminateRequested` is set
by `QThread.terminate` (a forced, asynchronous kill); `stopRequested`
would record a cooperative stop request observable by the thread's code —
the source provides no channel that ever sets it; `finished` records that
the thread has fully exited and its listener released the bind
resource. -/
structure ServerThread where
  host : Option String := none
  port : Option Nat := none
  socket : Option String := none
  started : Bool := false
  terminateRequested : Bool := false
  stopRequested : Bool := false
  finished : Bool := false
deriving DecidableEq

/-- `QThread.start`: spawn the execution unit hosting `uvicorn.run`. -/
def ServerThread.start (t : ServerThread) : ServerThread :=
  { t with started := true }

/-- `QThread.terminate`: forcibly terminate a running thread.  It does
not deliver a cooperative stop request, and it returns without waiting
for the thread to finish (so `finished` stays as it was).  On a thread
that is not running it does nothing. -/
def ServerThread.terminate (t : ServerThread) : ServerThread :=
  if t.started && !t.finished then { t with terminateRequested := true } else t

/-- The bind target the thread's `run` method serves on: the socket path
when `self.socket` is set, else the TCP host/port (`ServerThread.run`,
lines 71-75 of the source).  On every reachable start the relevant fields
are populated by `configure_server`, so the defaults are never used. -/
def ServerThread.bindTarget (t : ServerThread) : BindTarget :=
  match t.socket with
  | some s => BindTarget.unixSocket s
  | none => BindTarget.tcp (t.host.getD "") (t.port.getD 0)

/-- Observable events of one process run, in order of occurrence. -/
inductive Event where
  | queryConfig (result : Option Config)
  | showSetupWindow
  | execEnter
  | openUrl (url : String)
  | printMsg (msg : String)
  | startServer (bt : BindTarget)
  | terminateServer
  | processExit (code : Nat)
deriving DecidableEq

/-- An event delivered to the foreground loop: one of the three tray menu
actions of `create_system_tray` (Search carries the Boolean result of
`webbrowser.open`, which the source's lambda discards), or the user
closing the setup window. -/
inductive TrayEvent where
  | search (viewerOk : Bool)
  | configure
  | quit
  | closeWindow
deriving DecidableEq

/-- The state of the foreground shell: setup-window visibility, the
`quitOnLastWindowClosed` flag of the `QApplication` (set `False` by
`run`), the server thread once one is connected to `aboutToQuit`, and the
trace of observable events so far. -/
structure World where
  windowVisible : Bool
  quitOnLastWindowClosed : Bool
  server : Option ServerThread
  trace : List Event
deriving DecidableEq

/-- The fixed URL the tray's Search action opens (line 143 of the
source). -/
def searchUrl : String := "http://localhost:8000/"

/-- The diagnostic printed before the fatal exit (line 45 of the
source). -/
def notConfiguredMsg : String :=
  "Exiting as Khoj is not configured. Configure the application to use it."

/-- Dispatch of one foreground event, returning the new world and
whether `QApplication.quit` was called.  The three menu entries mirror
the `menu_actions` table of `create_system_tray`:
Search runs `webbrowser.open('http://localhost:8000/')` (result
discarded), Configure runs `window.show`, Quit runs `gui.quit`.  Closing
the setup window hides it; it quits the loop only if
`quitOnLastWindowClosed` is set (the source sets it `False`). -/
def processEvent (w : World) : TrayEvent → World × Bool
  | TrayEvent.search _ =>
      ({ w with trace := w.trace ++ [Event.openUrl searchUrl] }, false)
  | TrayEvent.configure => ({ w with windowVisible := true }, false)
  | TrayEvent.quit => (w, true)
  | TrayEvent.closeWindow =>
      ({ w with windowVisible := false }, w.quitOnLastWindowClosed)

/-- Emission of `aboutToQuit` just before `exec` returns: the only slot
ever connected is `server.terminate` (line 54 of the source), so the
connected server, if any, is terminated. -/
def emitAboutToQuit (w : World) : World :=
  match w.server with
  | some t =>
      { w with server := some t.terminate
               trace := w.trace ++ [Event.terminateServer] }
  | none => w

/-- `QApplication.exec`: process events until `quit` is called, then emit
`aboutToQuit` and return `true`; if the supplied events are exhausted
without a quit the loop is still blocked, returned as `false`. -/
def guiExec (w : World) : List TrayEvent → World × Bool
  | [] => (w, false)
  | e :: rest =>
      let r := processEvent w e
      if r.2 then (emitAboutToQuit r.1, true) else guiExec r.1 rest

/-- The server thread as built and started by lines 49-53 of the source:
`host, port, socket = configure_server(args)` followed by
`ServerThread(app, host, port, socket)` and `server.start()`. -/
def startedServer (cfg : Config) : ServerThread :=
  ServerThread.start
    { host := (configure_server cfg).1
      port := (configure_server cfg).2.1
      socket := (configure_server cfg).2.2 }

/-- The bind target deterministically derived from a configuration: the
composition of `configure_server` with the branch in
`ServerThread.run`. -/
def bindOfCfg : Config → BindTarget
  | Config.tcpCfg h p => BindTarget.tcp h p
  | Config.socketCfg s => BindTarget.unixSocket s

/-- Lines 41-57 of the source: re-read the configuration, exit fatally
with the diagnostic if it is still absent, else build and start the
server thread, connect its `terminate` to `aboutToQuit`, and run the
(second) event loop. -/
def afterFirstRun (w : World) (q2 : Option Config) (ev2 : List TrayEvent) :
    World :=
  let w1 : World := { w with trace := w.trace ++ [Event.queryConfig q2] }
  match q2 with
  | none =>
      { w1 with trace :=
          w1.trace ++ [Event.printMsg notConfiguredMsg, Event.processExit 1] }
  | some cfg =>
      let t := startedServer cfg
      let w2 : World :=
        { w1 with server := some t
                  trace := w1.trace ++
                    [Event.startServer t.bindTarget, Event.execEnter] }
      let r := guiExec w2 ev2
      if r.2 then
        { r.1 with trace := r.1.trace ++ [Event.processExit 0] }
      else r.1

/-- The `run` function of `src/main.py`.  `q1` and `q2` are the results
of the two `cli(sys.argv[1:])` reads (the ConfigProvider, whose module is
not among the sources; modelled from the spec as yielding
`Option Config`).  `ev1` drives the first-run event loop (entered only
when `q1` is absent), `ev2` the main loop.  A run whose event loop is
never quit is returned as-is: the process blocks there and no later event
ever enters the trace. -/
def run (q1 q2 : Option Config) (ev1 ev2 : List TrayEvent) : World :=
  let w0 : World :=
    { windowVisible := false
      quitOnLastWindowClosed := false
      server := none
      trace := [Event.queryConfig q1] }
  match q1 with
  | some _ => afterFirstRun w0 q2 ev2
  | none =>
      let w1 : World :=
        { w0 with windowVisible := true
                  trace := w0.trace ++ [Event.showSetupWindow, Event.execEnter] }
      let r := guiExec w1 ev1
      if r.2 then afterFirstRun r.1 q2 ev2 else r.1

/-- A trace fragment produced inside an event loop before any quit:
nothing but viewer launches. -/
def onlyUrls (l : List Event) : Prop :=
  ∀ e ∈ l, ∃ u, e = Event.openUrl u

/-- The bind targets passed to server starts, in order. -/
def startsOf (l : List Event) : List BindTarget :=
  l.filterMap fun e =>
    match e with
    | Event.startServer bt => some bt
    | _ => none

/-- How many times the configuration provider was queried. -/
def numQueries (l : List Event) : Nat :=
  (l.filter fun e =>
    match e with
    | Event.queryConfig _ => true
    | _ => false).length

/-- How many event loops were entered. -/
def numExecs (l : List Event) : Nat :=
  (l.filter fun e =>
    match e with
    | Event.execEnter => true
    | _ => false).length

/-- A concrete configuration used by witnesses and counterexamples: the
spec's scenario `{host:"127.0.0.1", port:8000}`. -/
def cfg0 : Config := Config.tcpCfg "127.0.0.1" 8000

/-- The property claim C4 asserts of the world after a quit-triggered
shutdown, stated from the spec's words: the background execution unit
observed a cooperative stop request, was not forcibly killed, and had
fully exited (bind resource released) when the stop call returned. -/
def quitStopWasCooperative (w : World) : Bool :=
  match w.server with
  | some t => t.stopRequested && !t.terminateRequested && t.finished
  | none => true

/-- The property claim C5 asserts, stated from the spec's words: when
the configuration is absent at launch, closing the setup surface ends
the first-run wait, after which the provider is re-queried exactly once
(so the run performs two queries in total). -/
def closeEndsFirstRunWait (q2 : Option Config) (ev1 ev2 : List TrayEvent) :
    Prop :=
  TrayEvent.closeWindow ∈ ev1 → numQueries (run none q2 ev1 ev2).trace = 2

/-! ### Structural lemmas about the event loop -/

theorem onlyUrls_nil : onlyUrls [] := by
  intro e he
  exact absurd he (List.not_mem_nil e)

theorem onlyUrls_cons (u : String) {l : List Event} (h : onlyUrls l) :
    onlyUrls (Event.openUrl u :: l) := by
  intro e he
  rcases List.mem_cons.mp he with h1 | h2
  · exact ⟨u, h1⟩
  · exact h e h2

theorem onlyUrls_not_mem {l : List Event} (h : onlyUrls l) {e : Event}
    (he : ∀ u, e ≠ Event.openUrl u) : e ∉ l := by
  intro hm
  obtain ⟨u, hu⟩ := h e hm
  exact he u hu

theorem numQueries_append (a b : List Event) :
    numQueries (a ++ b) = numQueries a + numQueries b := by
  simp [numQueries, List.filter_append]

theorem onlyUrls_numQueries {l : List Event} (h : onlyUrls l) :
    numQueries l = 0 := by
  simp only [numQueries, List.length_eq_zero, List.filter_eq_nil_iff]
  intro a ha
  obtain ⟨u, rfl⟩ := h a ha
  simp

theorem numExecs_append (a b : List Event) :
    numExecs (a ++ b) = numExecs a + numExecs b := by
  simp [numExecs, List.filter_append]

theorem onlyUrls_numExecs {l : List Event} (h : onlyUrls l) :
    numExecs l = 0 := by
  simp only [numExecs, List.length_eq_zero, List.filter_eq_nil_iff]
  intro a ha
  obtain ⟨u, rfl⟩ := h a ha
  simp

theorem startsOf_append (a b : List Event) :
    startsOf (a ++ b) = startsOf a ++ startsOf b := by
  simp [startsOf, List.filterMap_append]

theorem onlyUrls_startsOf {l : List Event} (h : onlyUrls l) :
    startsOf l = [] := by
  simp only [startsOf, List.filterMap_eq_nil_iff]
  intro a ha
  obtain ⟨u, rfl⟩ := h a ha
  simp

theorem guiExec_no_quit (evs : List TrayEvent) :
    ∀ w : World, w.quitOnLastWindowClosed = false → TrayEvent.quit ∉ evs →
      (guiExec w evs).2 = false ∧
      (guiExec w evs).1.server = w.server ∧
      (guiExec w evs).1.quitOnLastWindowClosed = false ∧
      ∃ ext, onlyUrls ext ∧ (guiExec w evs).1.trace = w.trace ++ ext := by
  induction evs with
  | nil =>
      intro w hf _
      exact ⟨rfl, rfl, hf, [], onlyUrls_nil, by simp [guiExec]⟩
  | cons e rest ih =>
      intro w hf hq
      have hqr : TrayEvent.quit ∉ rest := fun h => hq (List.mem_cons_of_mem _ h)
      cases e with
      | search ok =>
          obtain ⟨h1, h2, h3, ext, hext, htr⟩ :=
            ih { w with trace := w.trace ++ [Event.openUrl searchUrl] } hf hqr
          refine ⟨h1, h2, h3, Event.openUrl searchUrl :: ext,
            onlyUrls_cons _ hext, ?_⟩
          show (guiExec
              { w with trace := w.trace ++ [Event.openUrl searchUrl] }
              rest).1.trace = w.trace ++ Event.openUrl searchUrl :: ext
          rw [htr]
          simp
      | configure =>
          exact ih { w with windowVisible := true } hf hqr
      | quit =>
          exact absurd (List.mem_cons_self _ _) hq
      | closeWindow =>
          have hred :
              guiExec w (TrayEvent.closeWindow :: rest) =
                guiExec { w with windowVisible := false } rest := by
            simp [guiExec, processEvent, hf]
          rw [hred]
          exact ih { w with windowVisible := false } hf hqr

theorem guiExec_quit_noServer (evs : List TrayEvent) :
    ∀ w : World, w.quitOnLastWindowClosed = false → w.server = none →
      TrayEvent.quit ∈ evs →
      (guiExec w evs).2 = true ∧
      (guiExec w evs).1.server = none ∧
      (guiExec w evs).1.quitOnLastWindowClosed = false ∧
      ∃ ext, onlyUrls ext ∧ (guiExec w evs).1.trace = w.trace ++ ext := by
  induction evs with
  | nil =>
      intro w _ _ hq
      exact absurd hq (List.not_mem_nil _)
  | cons e rest ih =>
      intro w hf hs hq
      cases e with
      | search ok =>
          have hqr : TrayEvent.quit ∈ rest := by
            rcases List.mem_cons.mp hq with h | h
            · exact absurd h (by simp)
            · exact h
          obtain ⟨h1, h2, h3, ext, hext, htr⟩ :=
            ih { w with trace := w.trace ++ [Event.openUrl searchUrl] } hf hs hqr
          refine ⟨h1, h2, h3, Event.openUrl searchUrl :: ext,
            onlyUrls_cons _ hext, ?_⟩
          show (guiExec
              { w with trace := w.trace ++ [Event.openUrl searchUrl] }
              rest).1.trace = w.trace ++ Event.openUrl searchUrl :: ext
          rw [htr]
          simp
      | configure =>
          have hqr : TrayEvent.quit ∈ rest := by
            rcases List.mem_cons.mp hq with h | h
            · exact absurd h (by simp)
            · exact h
          exact ih { w with windowVisible := true } hf hs hqr
      | quit =>
          refine ⟨?_, ?_, ?_, [], onlyUrls_nil, ?_⟩ <;>
            simp [guiExec, processEvent, emitAboutToQuit, hs, hf]
      | closeWindow =>
          have hqr : TrayEvent.quit ∈ rest := by
            rcases List.mem_cons.mp hq with h | h
            · exact absurd h (by simp)
            · exact h
          have hred :
              guiExec w (TrayEvent.closeWindow :: rest) =
                guiExec { w with windowVisible := false } rest := by
            simp [guiExec, processEvent, hf]
          rw [hred]
          exact ih { w with windowVisible := false } hf hs hqr

theorem guiExec_quit_server (evs : List TrayEvent) :
    ∀ (w : World) (t : ServerThread), w.quitOnLastWindowClosed = false →
      w.server = some t → TrayEvent.quit ∈ evs →
      (guiExec w evs).2 = true ∧
      (guiExec w evs).1.server = some t.terminate ∧
      (guiExec w evs).1.quitOnLastWindowClosed = false ∧
      ∃ ext, onlyUrls ext ∧
        (guiExec w evs).1.trace = (w.trace ++ ext) ++ [Event.terminateServer] := by
  induction evs with
  | nil =>
      intro w t _ _ hq
      exact absurd hq (List.not_mem_nil _)
  | cons e rest ih =>
      intro w t hf hs hq
      cases e with
      | search ok =>
          have hqr : TrayEvent.quit ∈ rest := by
            rcases List.mem_cons.mp hq with h | h
            · exact absurd h (by simp)
            · exact h
          obtain ⟨h1, h2, h3, ext, hext, htr⟩ :=
            ih { w with trace := w.trace ++ [Event.openUrl searchUrl] } t hf hs hqr
          refine ⟨h1, h2, h3, Event.openUrl searchUrl :: ext,
            onlyUrls_cons _ hext, ?_⟩
          show (guiExec
              { w with trace := w.trace ++ [Event.openUrl searchUrl] }
              rest).1.trace =
            (w.trace ++ Event.openUrl searchUrl :: ext) ++ [Event.terminateServer]
          rw [htr]
          simp
      | configure =>
          have hqr : TrayEvent.quit ∈ rest := by
            rcases List.mem_cons.mp hq with h | h
            · exact absurd h (by simp)
            · exact h
          exact ih { w with windowVisible := true } t hf hs hqr
      | quit =>
          refine ⟨?_, ?_, ?_, [], onlyUrls_nil, ?_⟩ <;>
            simp [guiExec, processEvent, emitAboutToQuit, hs, hf]
      | closeWindow =>
          have hqr : TrayEvent.quit ∈ rest := by
            rcases List.mem_cons.mp hq with h | h
            · exact absurd h (by simp)
            · exact h
          have hred :
              guiExec w (TrayEvent.closeWindow :: rest) =
                guiExec { w with windowVisible := false } rest := by
            simp [guiExec, processEvent, hf]
          rw [hred]
          exact ih { w with windowVisible := false } t hf hs hqr

theorem startedServer_bindTarget (cfg : Config) :
    (startedServer cfg).bindTarget = bindOfCfg cfg := by
  cases cfg <;> rfl

theorem startedServer_terminate_fields (cfg : Config) :
    ((startedServer cfg).terminate).terminateRequested = true ∧
    ((startedServer cfg).terminate).stopRequested = false ∧
    ((startedServer cfg).terminate).finished = false := by
  cases cfg <;> exact ⟨rfl, rfl, rfl⟩

theorem afterFirstRun_none (w : World) (ev2 : List TrayEvent) :
    afterFirstRun w none ev2 =
      { w with trace := w.trace ++
          [Event.queryConfig none, Event.printMsg notConfiguredMsg,
           Event.processExit 1] } := by
  simp [afterFirstRun]

theorem afterFirstRun_some_quit (w : World) (cfg : Config)
    (ev2 : List TrayEvent) (hf : w.quitOnLastWindowClosed = false)
    (hq : TrayEvent.quit ∈ ev2) :
    ∃ ext, onlyUrls ext ∧
      (afterFirstRun w (some cfg) ev2).trace =
        ((w.trace ++
          [Event.queryConfig (some cfg), Event.startServer (bindOfCfg cfg),
           Event.execEnter]) ++ ext) ++
          [Event.terminateServer, Event.processExit 0] ∧
      (afterFirstRun w (some cfg) ev2).server =
        some (startedServer cfg).terminate := by
  have hw2 :
      afterFirstRun w (some cfg) ev2 =
        (let w2 : World :=
          { w with server := some (startedServer cfg)
                   trace := (w.trace ++ [Event.queryConfig (some cfg)]) ++
                     [Event.startServer (startedServer cfg).bindTarget,
                      Event.execEnter] }
        let r := guiExec w2 ev2
        if r.2 then
          { r.1 with trace := r.1.trace ++ [Event.processExit 0] }
        else r.1) := rfl
  rw [hw2]
  obtain ⟨h1, h2, h3, ext, hext, htr⟩ :=
    guiExec_quit_server ev2
      { w with server := some (startedServer cfg)
               trace := (w.trace ++ [Event.queryConfig (some cfg)]) ++
                 [Event.startServer (startedServer cfg).bindTarget,
                  Event.execEnter] }
      (startedServer cfg) hf rfl hq
  refine ⟨ext, hext, ?_, ?_⟩
  · simp only [h1, if_true]
    rw [htr]
    simp [startedServer_bindTarget, List.append_assoc]
  · simp only [h1, if_true]
    exact h2

theorem afterFirstRun_some_noQuit (w : World) (cfg : Config)
    (ev2 : List TrayEvent) (hf : w.quitOnLastWindowClosed = false)
    (hq : TrayEvent.quit ∉ ev2) :
    ∃ ext, onlyUrls ext ∧
      (afterFirstRun w (some cfg) ev2).trace =
        (w.trace ++
          [Event.queryConfig (some cfg), Event.startServer (bindOfCfg cfg),
           Event.execEnter]) ++ ext ∧
      (afterFirstRun w (some cfg) ev2).server = some (startedServer cfg) := by
  have hw2 :
      afterFirstRun w (some cfg) ev2 =
        (let w2 : World :=
          { w with server := some (startedServer cfg)
                   trace := (w.trace ++ [Event.queryConfig (some cfg)]) ++
                     [Event.startServer (startedServer cfg).bindTarget,
                      Event.execEnter] }
        let r := guiExec w2 ev2
        if r.2 then
          { r.1 with trace := r.1.trace ++ [Event.processExit 0] }
        else r.1) := rfl
  rw [hw2]
  obtain ⟨h1, h2, h3, ext, hext, htr⟩ :=
    guiExec_no_quit ev2
      { w with server := some (startedServer cfg)
               trace := (w.trace ++ [Event.queryConfig (some cfg)]) ++
                 [Event.startServer (startedServer cfg).bindTarget,
                  Event.execEnter] }
      hf hq
  refine ⟨ext, hext, ?_, ?_⟩
  · simp only [h1, Bool.false_eq_true, if_false]
    rw [htr]
    simp [startedServer_bindTarget, List.append_assoc]
  · simp only [h1, Bool.false_eq_true, if_false]
    exact h2

theorem run_some (c1 : Config) (q2 : Option Config)
    (ev1 ev2 : List TrayEvent) :
    run (some c1) q2 ev1 ev2 =
      afterFirstRun
        { windowVisible := false, quitOnLastWindowClosed := false,
          server := none, trace := [Event.queryConfig (some c1)] } q2 ev2 :=
  rfl

theorem run_none_quit (q2 : Option Config) (ev1 ev2 : List TrayEvent)
    (hq : TrayEvent.quit ∈ ev1) :
    ∃ w' : World, w'.quitOnLastWindowClosed = false ∧ w'.server = none ∧
      (∃ ext, onlyUrls ext ∧
        w'.trace =
          [Event.queryConfig none, Event.showSetupWindow, Event.execEnter] ++
            ext) ∧
      run none q2 ev1 ev2 = afterFirstRun w' q2 ev2 := by
  have hred :
      run none q2 ev1 ev2 =
        (let w1 : World :=
          { windowVisible := true, quitOnLastWindowClosed := false,
            server := none,
            trace := [Event.queryConfig none, Event.showSetupWindow,
              Event.execEnter] }
        let r := guiExec w1 ev1
        if r.2 then afterFirstRun r.1 q2 ev2 else r.1) := rfl
  obtain ⟨h1, h2, h3, ext, hext, htr⟩ :=
    guiExec_quit_noServer ev1
      { windowVisible := true, quitOnLastWindowClosed := false,
        server := none,
        trace := [Event.queryConfig none, Event.showSetupWindow,
          Event.execEnter] }
      rfl rfl hq
  refine ⟨_, h3, h2, ⟨ext, hext, htr⟩, ?_⟩
  rw [hred]
  simp only [h1, if_true]

theorem run_none_noQuit (q2 : Option Config) (ev1 ev2 : List TrayEvent)
    (hq : TrayEvent.quit ∉ ev1) :
    ∃ ext, onlyUrls ext ∧
      (run none q2 ev1 ev2).trace =
        [Event.queryConfig none, Event.showSetupWindow, Event.execEnter] ++
          ext ∧
      (run none q2 ev1 ev2).server = none := by
  have hred :
      run none q2 ev1 ev2 =
        (let w1 : World :=
          { windowVisible := true, quitOnLastWindowClosed := false,
            server := none,
            trace := [Event.queryConfig none, Event.showSetupWindow,
              Event.execEnter] }
        let r := guiExec w1 ev1
        if r.2 then afterFirstRun r.1 q2 ev2 else r.1) := rfl
  obtain ⟨h1, h2, h3, ext, hext, htr⟩ :=
    guiExec_no_quit ev1
      { windowVisible := true, quitOnLastWindowClosed := false,
        server := none,
        trace := [Event.queryConfig none, Event.showSetupWindow,
          Event.execEnter] }
      rfl hq
  refine ⟨ext, hext, ?_, ?_⟩ <;> rw [hred] <;> simp only [h1, Bool.false_eq_true, if_false]
  · exact htr
  · exact h2

theorem notOpenUrl_terminateServer :
    ∀ u, Event.terminateServer ≠ Event.openUrl u :=
  fun _ h => Event.noConfusion h

theorem notOpenUrl_processExit (c : Nat) :
    ∀ u, Event.processExit c ≠ Event.openUrl u :=
  fun _ h => Event.noConfusion h

theorem afterFirstRun_numQueries (w : World) (q2 : Option Config)
    (ev2 : List TrayEvent) (hf : w.quitOnLastWindowClosed = false) :
    numQueries (afterFirstRun w q2 ev2).trace = numQueries w.trace + 1 := by
  cases q2 with
  | none =>
      rw [afterFirstRun_none]
      simp [numQueries_append, numQueries]
  | some cfg =>
      by_cases hq : TrayEvent.quit ∈ ev2
      · obtain ⟨ext, hext, htr, _⟩ := afterFirstRun_some_quit w cfg ev2 hf hq
        rw [htr]
        simp only [numQueries_append, onlyUrls_numQueries hext]
        simp [numQueries]
      · obtain ⟨ext, hext, htr, _⟩ := afterFirstRun_some_noQuit w cfg ev2 hf hq
        rw [htr]
        simp only [numQueries_append, onlyUrls_numQueries hext]
        simp [numQueries]

theorem afterFirstRun_numExecs (w : World) (q2 : Option Config)
    (ev2 : List TrayEvent) (hf : w.quitOnLastWindowClosed = false) :
    numExecs (afterFirstRun w q2 ev2).trace =
      numExecs w.trace + (match q2 with | none => 0 | some _ => 1) := by
  cases q2 with
  | none =>
      rw [afterFirstRun_none]
      simp [numExecs_append, numExecs]
  | some cfg =>
      by_cases hq : TrayEvent.quit ∈ ev2
      · obtain ⟨ext, hext, htr, _⟩ := afterFirstRun_some_quit w cfg ev2 hf hq
        rw [htr]
        simp only [numExecs_append, onlyUrls_numExecs hext]
        simp [numExecs]
      · obtain ⟨ext, hext, htr, _⟩ := afterFirstRun_some_noQuit w cfg ev2 hf hq
        rw [htr]
        simp only [numExecs_append, onlyUrls_numExecs hext]
        simp [numExecs]

theorem afterFirstRun_startsOf (w : World) (q2 : Option Config)
    (ev2 : List TrayEvent) (hf : w.quitOnLastWindowClosed = false) :
    startsOf (afterFirstRun w q2 ev2).trace =
      startsOf w.trace ++
        (match q2 with | none => [] | some cfg => [bindOfCfg cfg]) := by
  cases q2 with
  | none =>
      rw [afterFirstRun_none]
      simp [startsOf_append, startsOf]
  | some cfg =>
      by_cases hq : TrayEvent.quit ∈ ev2
      · obtain ⟨ext, hext, htr, _⟩ := afterFirstRun_some_quit w cfg ev2 hf hq
        rw [htr]
        simp only [startsOf_append, onlyUrls_startsOf hext]
        simp [startsOf]
      · obtain ⟨ext, hext, htr, _⟩ := afterFirstRun_some_noQuit w cfg ev2 hf hq
        rw [htr]
        simp only [startsOf_append, onlyUrls_startsOf hext]
        simp [startsOf]

theorem afterFirstRun_exit1 (w : World) (q2 : Option Config)
    (ev2 : List TrayEvent) (hf : w.quitOnLastWindowClosed = false)
    (hw : Event.processExit 1 ∉ w.trace) :
    (Event.processExit 1 ∈ (afterFirstRun w q2 ev2).trace ↔ q2 = none) := by
  cases q2 with
  | none =>
      rw [afterFirstRun_none]
      simp
  | some cfg =>
      by_cases hq : TrayEvent.quit ∈ ev2
      · obtain ⟨ext, hext, htr, _⟩ := afterFirstRun_some_quit w cfg ev2 hf hq
        rw [htr]
        have hx := onlyUrls_not_mem hext (notOpenUrl_processExit 1)
        simp [List.mem_append, hw, hx]
      · obtain ⟨ext, hext, htr, _⟩ := afterFirstRun_some_noQuit w cfg ev2 hf hq
        rw [htr]
        have hx := onlyUrls_not_mem hext (notOpenUrl_processExit 1)
        simp [List.mem_append, hw, hx]

theorem run_firstPhase (q1 q2 : Option Config) (ev1 ev2 : List TrayEvent)
    (h : q1 = none → TrayEvent.quit ∈ ev1) :
    ∃ w' : World, w'.quitOnLastWindowClosed = false ∧ w'.server = none ∧
      numQueries w'.trace = 1 ∧ startsOf w'.trace = [] ∧
      Event.processExit 1 ∉ w'.trace ∧ Event.terminateServer ∉ w'.trace ∧
      numExecs w'.trace = (match q1 with | none => 1 | some _ => 0) ∧
      run q1 q2 ev1 ev2 = afterFirstRun w' q2 ev2 := by
  cases q1 with
  | some c1 =>
      refine ⟨World.mk false false none [Event.queryConfig (some c1)],
        rfl, rfl, ?_, ?_, ?_, ?_, ?_, run_some c1 q2 ev1 ev2⟩ <;>
        simp [numQueries, startsOf, numExecs]
  | none =>
      obtain ⟨w', hf, hs, ⟨ext, hext, htr⟩, hrun⟩ :=
        run_none_quit q2 ev1 ev2 (h rfl)
      have hterm := onlyUrls_not_mem hext notOpenUrl_terminateServer
      have hexit := onlyUrls_not_mem hext (notOpenUrl_processExit 1)
      refine ⟨w', hf, hs, ?_, ?_, ?_, ?_, ?_, hrun⟩ <;> rw [htr]
      · simp only [numQueries_append, onlyUrls_numQueries hext]
        simp [numQueries]
      · simp only [startsOf_append, onlyUrls_startsOf hext]
        simp [startsOf]
      · simp [List.mem_append, hexit]
      · simp [List.mem_append, hterm]
      · simp only [numExecs_append, onlyUrls_numExecs hext]
        simp [numExecs]

theorem afterFirstRun_trace_ext (w : World) (q2 : Option Config)
    (ev2 : List TrayEvent) (hf : w.quitOnLastWindowClosed = false) :
    ∃ ext2, (afterFirstRun w q2 ev2).trace = w.trace ++ ext2 := by
  cases q2 with
  | none =>
      rw [afterFirstRun_none]
      exact ⟨_, rfl⟩
  | some cfg =>
      by_cases hq : TrayEvent.quit ∈ ev2
      · obtain ⟨ext, _, htr, _⟩ := afterFirstRun_some_quit w cfg ev2 hf hq
        rw [htr]
        refine ⟨[Event.queryConfig (some cfg),
          Event.startServer (bindOfCfg cfg), Event.execEnter] ++
          (ext ++ [Event.terminateServer, Event.processExit 0]), ?_⟩
        simp [List.append_assoc]
      · obtain ⟨ext, _, htr, _⟩ := afterFirstRun_some_noQuit w cfg ev2 hf hq
        rw [htr]
        refine ⟨[Event.queryConfig (some cfg),
          Event.startServer (bindOfCfg cfg), Event.execEnter] ++ ext, ?_⟩
        simp [List.append_assoc]

/-! ### The claims -/

/-- Claim C1 (confirmed): for every process invocation in which the
configuration provider yields no configuration on both the first check
and the post-first-run re-check (and the first-run wait is eventually
quit, so the re-check is reached), the process prints the human-readable
diagnostic and exits with status 1, and the server is never started. -/
theorem C1_unconfigured_twice_exits_nonzero (q1 q2 : Option Config)
    (ev1 ev2 : List TrayEvent) (h1 : q1 = none) (h2 : q2 = none)
    (hq : TrayEvent.quit ∈ ev1) :
    (∃ pre, (run q1 q2 ev1 ev2).trace =
        pre ++ [Event.printMsg notConfiguredMsg, Event.processExit 1]) ∧
    startsOf (run q1 q2 ev1 ev2).trace = [] := by
  subst h1
  subst h2
  obtain ⟨w', hf, hs, hq1, hst, hex1, hterm, hexe, hrun⟩ :=
    run_firstPhase none none ev1 ev2 (fun _ => hq)
  rw [hrun, afterFirstRun_none]
  constructor
  · exact ⟨w'.trace ++ [Event.queryConfig none], by simp⟩
  · show startsOf (w'.trace ++ _) = []
    simp only [startsOf_append, hst]
    simp [startsOf]

/-- Witness for C1 at the concrete input of the spec's dismiss scenario:
no configuration at either read, the user quits the first-run wait. -/
theorem C1_witness :
    (∃ pre, (run none none [TrayEvent.quit] []).trace =
        pre ++ [Event.printMsg notConfiguredMsg, Event.processExit 1]) ∧
    startsOf (run none none [TrayEvent.quit] []).trace = [] :=
  C1_unconfigured_twice_exits_nonzero none none [TrayEvent.quit] []
    rfl rfl (by decide)

/-- Claim C2 (confirmed): for every invocation in which the provider
yields a configuration on the first check, the server is started exactly
once, with the bind target derived deterministically from that
configuration.  The ConfigProvider is side-effect-free with respect to
the core (spec, sections 2 and 6) and no user interaction can occur
between the two reads when the first succeeds (no event loop runs in
between), so the unconditional second read yields the same
configuration; it is therefore instantiated with the same value. -/
theorem C2_first_check_config_starts_once (cfg : Config)
    (ev1 ev2 : List TrayEvent) :
    startsOf (run (some cfg) (some cfg) ev1 ev2).trace = [bindOfCfg cfg] := by
  obtain ⟨w', hf, _, _, hst, _, _, _, hrun⟩ :=
    run_firstPhase (some cfg) (some cfg) ev1 ev2 (fun hh => absurd hh (by simp))
  rw [hrun, afterFirstRun_startsOf w' (some cfg) ev2 hf, hst]
  simp

/-- Claim C3 (confirmed): whenever a server is running and the tray's
Quit action is dispatched, the server's stop (`terminate`, the slot
registered on `aboutToQuit`) is invoked exactly once before the process
exits, and the quit-triggered termination exits with status 0.  In the
states where no server exists (`Unconfigured`/`AwaitingFirstRun`), stop
is a no-op by C6 and there is nothing to invoke. -/
theorem C3_quit_stops_server_before_exit_zero (q1 q2 : Option Config)
    (cfg : Config) (ev1 ev2 : List TrayEvent) (h2 : q2 = some cfg)
    (hfirst : q1 = none → TrayEvent.quit ∈ ev1)
    (hq : TrayEvent.quit ∈ ev2) :
    ∃ pre, (run q1 q2 ev1 ev2).trace =
        pre ++ [Event.terminateServer, Event.processExit 0] ∧
      Event.startServer (bindOfCfg cfg) ∈ pre ∧
      Event.terminateServer ∉ pre := by
  subst h2
  obtain ⟨w', hf, hs, hq1, hst, hex1, hterm, hexe, hrun⟩ :=
    run_firstPhase q1 (some cfg) ev1 ev2 hfirst
  rw [hrun]
  obtain ⟨ext, hext, htr, hsrv⟩ := afterFirstRun_some_quit w' cfg ev2 hf hq
  refine ⟨(w'.trace ++
    [Event.queryConfig (some cfg), Event.startServer (bindOfCfg cfg),
     Event.execEnter]) ++ ext, ?_, ?_, ?_⟩
  · rw [htr]
  · simp
  · have hx := onlyUrls_not_mem hext notOpenUrl_terminateServer
    simp [List.mem_append, hterm, hx]

/-- Witness for C3 at the spec's scenario: configured with
`{host:"127.0.0.1", port:8000}`, Quit dispatched while Running. -/
theorem C3_witness :
    ∃ pre, (run (some cfg0) (some cfg0) [] [TrayEvent.quit]).trace =
        pre ++ [Event.terminateServer, Event.processExit 0] ∧
      Event.startServer (bindOfCfg cfg0) ∈ pre ∧
      Event.terminateServer ∉ pre :=
  C3_quit_stops_server_before_exit_zero (some cfg0) (some cfg0) cfg0 []
    [TrayEvent.quit] rfl (fun hh => Option.noConfusion hh) (by decide)

/-- Claim C4 (corrected) — counterexample.  The claim says that on quit
the running background execution unit observes a stop request and
releases its bound resource rather than being killed, and that the stop
call blocks until the unit has fully exited.  At the concrete run below
(configured, Quit dispatched while Running) `quitStopWasCooperative`
is false: the quit path invoked `QThread.terminate`
(`terminateRequested = true`, a forced kill), no cooperative stop request
was ever observable (`stopRequested = false`), and the unit had not
exited when the call returned (`finished = false`). -/
theorem C4_counterexample :
    quitStopWasCooperative
      (run (some cfg0) (some cfg0) [] [TrayEvent.quit]) = false := by
  rfl

/-- Claim C4 (corrected) — amended claim: on quit, the running
background execution unit is forcibly terminated via `QThread.terminate`
(registered on `aboutToQuit`): it is killed rather than cooperatively
cancelled — no stop request is observed by the unit — and the call
returns without blocking until the unit has exited or released its bind
resource. -/
theorem C4_quit_kills_server_without_waiting (q1 q2 : Option Config)
    (cfg : Config) (ev1 ev2 : List TrayEvent) (h2 : q2 = some cfg)
    (hfirst : q1 = none → TrayEvent.quit ∈ ev1)
    (hq : TrayEvent.quit ∈ ev2) :
    ∃ t, (run q1 q2 ev1 ev2).server = some t ∧
      t.terminateRequested = true ∧ t.stopRequested = false ∧
      t.finished = false := by
  subst h2
  obtain ⟨w', hf, _, _, _, _, _, _, hrun⟩ :=
    run_firstPhase q1 (some cfg) ev1 ev2 hfirst
  rw [hrun]
  obtain ⟨ext, hext, htr, hsrv⟩ := afterFirstRun_some_quit w' cfg ev2 hf hq
  obtain ⟨f1, f2, f3⟩ := startedServer_terminate_fields cfg
  exact ⟨(startedServer cfg).terminate, hsrv, f1, f2, f3⟩

/-- Witness for the amended C4 at the spec's Running-quit scenario. -/
theorem C4_witness :
    ∃ t, (run (some cfg0) (some cfg0) [] [TrayEvent.quit]).server = some t ∧
      t.terminateRequested = true ∧ t.stopRequested = false ∧
      t.finished = false :=
  C4_quit_kills_server_without_waiting (some cfg0) (some cfg0) cfg0 []
    [TrayEvent.quit] rfl (fun hh => Option.noConfusion hh) (by decide)

/-- Claim C5 (corrected) — counterexample.  The claim says the foreground
context suspends exactly until the setup surface is closed, whose closure
ends the wait, after which the provider is re-queried once.  At the
concrete input below the configuration is absent at launch and the user
closes the setup window, yet the wait does not end and no re-query ever
happens (`setQuitOnLastWindowClosed(False)` makes window closure a
non-quit event): the run performs one query, not two. -/
theorem C5_counterexample :
    ¬ closeEndsFirstRunWait (some cfg0) [TrayEvent.closeWindow] [] := by
  intro hcl
  have h2 := hcl (by decide)
  exact absurd h2 (by decide)

/-- Claim C5 (corrected) — amended claim: when the configuration is
absent at launch the setup surface is shown and the foreground context
suspends until the application quit signal is dispatched (closing the
setup surface does not end the wait, because quit-on-last-window-closed
is disabled); once the wait ends, the provider is re-queried exactly
once, and while it has not ended only the initial query has happened. -/
theorem C5_wait_ends_on_quit_then_requery (q2 : Option Config)
    (ev1 ev2 : List TrayEvent) :
    Event.showSetupWindow ∈ (run none q2 ev1 ev2).trace ∧
    numQueries (run none q2 ev1 ev2).trace =
      (if TrayEvent.quit ∈ ev1 then 2 else 1) := by
  by_cases hq : TrayEvent.quit ∈ ev1
  · rw [if_pos hq]
    obtain ⟨w', hf, hs, ⟨ext, hext, htr⟩, hrun⟩ := run_none_quit q2 ev1 ev2 hq
    constructor
    · rw [hrun]
      obtain ⟨ext2, htr2⟩ := afterFirstRun_trace_ext w' q2 ev2 hf
      rw [htr2, htr]
      simp
    · rw [hrun, afterFirstRun_numQueries w' q2 ev2 hf, htr]
      simp only [numQueries_append, onlyUrls_numQueries hext]
      simp [numQueries]
  · rw [if_neg hq]
    obtain ⟨ext, hext, htr, hs⟩ := run_none_noQuit q2 ev1 ev2 hq
    constructor
    · rw [htr]
      simp
    · rw [htr]
      simp only [numQueries_append, onlyUrls_numQueries hext]
      simp [numQueries]

/-- Claim C6 (confirmed): the registered stop operation
(`QThread.terminate`) is idempotent — invoking it twice in succession
leaves the server handle in exactly the observable state one invocation
leaves it in — and invoking it on a handle that was never started (the
freshly constructed thread, all control flags at their defaults) is a
no-op, not an error. -/
theorem C6_stop_idempotent_and_noop_unstarted (t : ServerThread)
    (h : Option String) (p : Option Nat) (s : Option String) :
    t.terminate.terminate = t.terminate ∧
    ServerThread.terminate { host := h, port := p, socket := s } =
      { host := h, port := p, socket := s } := by
  constructor
  · rcases t with ⟨h0, p0, s0, st, tr, sr, fi⟩
    cases st <;> cases fi <;> rfl
  · rfl

/-- Claim C7 (confirmed): if the tray's Quit action is dispatched while
the first-run setup surface is being awaited, the process does not exit
at that point: the first event-loop wait returns, the configuration is
re-checked (two queries in total), and the program then either prints the
diagnostic and exits with status 1 (still absent) or starts the server
and enters a second event loop. -/
theorem C7_quit_during_first_run_continues (q2 : Option Config)
    (ev1 ev2 : List TrayEvent) (hq : TrayEvent.quit ∈ ev1) :
    numQueries (run none q2 ev1 ev2).trace = 2 ∧
    (q2 = none → ∃ pre, (run none q2 ev1 ev2).trace =
        pre ++ [Event.printMsg notConfiguredMsg, Event.processExit 1]) ∧
    (∀ cfg, q2 = some cfg →
      startsOf (run none q2 ev1 ev2).trace = [bindOfCfg cfg] ∧
      numExecs (run none q2 ev1 ev2).trace = 2) := by
  obtain ⟨w', hf, hs, hq1, hst, hex1, hterm, hexe, hrun⟩ :=
    run_firstPhase none q2 ev1 ev2 (fun _ => hq)
  refine ⟨?_, ?_, ?_⟩
  · rw [hrun, afterFirstRun_numQueries w' q2 ev2 hf, hq1]
  · rintro rfl
    rw [hrun, afterFirstRun_none]
    exact ⟨w'.trace ++ [Event.queryConfig none], by simp⟩
  · rintro cfg rfl
    constructor
    · rw [hrun, afterFirstRun_startsOf w' (some cfg) ev2 hf, hst]
      simp
    · rw [hrun, afterFirstRun_numExecs w' (some cfg) ev2 hf, hexe]
      rfl

/-- Witness for C7 at the spec's save scenario: absent at launch, the
user quits the first-run wait, the re-read yields
`{host:"127.0.0.1", port:8000}`. -/
theorem C7_witness :
    numQueries (run none (some cfg0) [TrayEvent.quit] []).trace = 2 ∧
    (some cfg0 = none →
      ∃ pre, (run none (some cfg0) [TrayEvent.quit] []).trace =
        pre ++ [Event.printMsg notConfiguredMsg, Event.processExit 1]) ∧
    (∀ cfg, some cfg0 = some cfg →
      startsOf (run none (some cfg0) [TrayEvent.quit] []).trace =
        [bindOfCfg cfg] ∧
      numExecs (run none (some cfg0) [TrayEvent.quit] []).trace = 2) :=
  C7_quit_during_first_run_continues (some cfg0) [TrayEvent.quit] []
    (by decide)

/-- Claim C8 (confirmed): in every invocation whose first-run phase
completes, the configuration is re-read unconditionally (two queries
happen even when the first check already yielded a configuration), and
both the bind target passed to the server start and the decision to exit
fatally are derived solely from the second read: two runs with the same
second read but arbitrary different first reads start the same servers
and agree on fatal exit. -/
theorem C8_second_read_is_authoritative (q1 q1' q2 : Option Config)
    (ev1 ev1' ev2 : List TrayEvent)
    (h : q1 = none → TrayEvent.quit ∈ ev1)
    (h' : q1' = none → TrayEvent.quit ∈ ev1') :
    numQueries (run q1 q2 ev1 ev2).trace = 2 ∧
    startsOf (run q1 q2 ev1 ev2).trace =
      startsOf (run q1' q2 ev1' ev2).trace ∧
    (Event.processExit 1 ∈ (run q1 q2 ev1 ev2).trace ↔
      Event.processExit 1 ∈ (run q1' q2 ev1' ev2).trace) := by
  obtain ⟨w', hf, _, hq1, hst, hex1, _, _, hrun⟩ :=
    run_firstPhase q1 q2 ev1 ev2 h
  obtain ⟨w2, hf2, _, hq12, hst2, hex12, _, _, hrun2⟩ :=
    run_firstPhase q1' q2 ev1' ev2 h'
  refine ⟨?_, ?_, ?_⟩
  · rw [hrun, afterFirstRun_numQueries w' q2 ev2 hf, hq1]
  · rw [hrun, hrun2, afterFirstRun_startsOf w' q2 ev2 hf,
      afterFirstRun_startsOf w2 q2 ev2 hf2, hst, hst2]
  · rw [hrun, hrun2, afterFirstRun_exit1 w' q2 ev2 hf hex1,
      afterFirstRun_exit1 w2 q2 ev2 hf2 hex12]

/-- Witness for C8: a run configured from the start against a run that
was unconfigured at launch and quit out of the first-run wait, both
re-reading the same configuration. -/
theorem C8_witness :
    numQueries (run (some cfg0) (some cfg0) [] []).trace = 2 ∧
    startsOf (run (some cfg0) (some cfg0) [] []).trace =
      startsOf (run none (some cfg0) [TrayEvent.quit] []).trace ∧
    (Event.processExit 1 ∈ (run (some cfg0) (some cfg0) [] []).trace ↔
      Event.processExit 1 ∈ (run none (some cfg0) [TrayEvent.quit] []).trace) :=
  C8_second_read_is_authoritative (some cfg0) none (some cfg0) []
    [TrayEvent.quit] [] (fun hh => Option.noConfusion hh) (fun _ => by decide)

/-- Claim C9 (confirmed): dispatching the tray's Search action opens the
fixed root URL `http://localhost:8000/` in the external viewer and does
nothing else — the world is unchanged except for the recorded viewer
launch, no quit is signalled, and the outcome of the viewer launch
(`webbrowser.open`'s Boolean result) is ignored: the dispatch result is
the same whatever that outcome is, and it does not read any lifecycle
state. -/
theorem C9_search_opens_fixed_url (w : World) (ok ok' : Bool) :
    processEvent w (TrayEvent.search ok) =
      ({ w with trace := w.trace ++ [Event.openUrl searchUrl] }, false) ∧
    processEvent w (TrayEvent.search ok) =
      processEvent w (TrayEvent.search ok') :=
  ⟨rfl, rfl⟩

/-- Claim C10 (confirmed): dispatching the tray's Configure action
re-shows the setup surface and changes nothing else — it does not signal
quit, and the server, the trace and every other component of the world
are untouched; the event loop simply continues on the world with the
window made visible. -/
theorem C10_configure_only_shows_window (w : World)
    (evs : List TrayEvent) :
    processEvent w TrayEvent.configure =
      ({ w with windowVisible := true }, false) ∧
    guiExec w (TrayEvent.configure :: evs) =
      guiExec { w with windowVisible := true } evs :=
  ⟨rfl, rfl⟩

end Khoj
